import Mathlib

/-!
Shallow embedding of the pokemon-identifier bot (src/final4.py and
src/app.py): name normalisation, flee-message name extraction, the
store/assign pending queue, the JSON catalog round-trip, and the
nearest-neighbour identify scan.
-/

namespace PokeBot

/-- Whitespace characters matched by Python's str.strip and the regex
class backslash-s (space, tab, newline, carriage return, vertical tab,
form feed). -/
def pyWs (c : Char) : Bool :=
  c = ' ' || c = '\t' || c = '\n' || c = '\r' || c = Char.ofNat 11 || c = Char.ofNat 12

/-- The quote characters stripped by normalise_name / real_name:
apostrophe, double quote, and the four curly quotes. -/
def quoteChar (c : Char) : Bool :=
  c = Char.ofNat 39 || c = Char.ofNat 34 || c = Char.ofNat 8220 ||
  c = Char.ofNat 8221 || c = Char.ofNat 8216 || c = Char.ofNat 8217

/-- The trailing punctuation characters stripped by normalise_name /
real_name: period, comma, exclamation, question mark, colon, semicolon. -/
def punctChar (c : Char) : Bool :=
  c = '.' || c = ',' || c = '!' || c = '?' || c = ':' || c = ';'

/-- Drop the maximal trailing run of characters satisfying p. -/
def dropTrail (p : Char → Bool) (l : List Char) : List Char :=
  (l.reverse.dropWhile p).reverse

/-- Python str.strip: drop leading and trailing whitespace. -/
def pyStrip (l : List Char) : List Char :=
  dropTrail pyWs (l.dropWhile pyWs)

/-- The body of normalise_name on a character list: strip whitespace,
strip the leading and trailing quote runs, strip the trailing punctuation
run, then replace each space by an underscore. -/
def normalise_list (l : List Char) : List Char :=
  let s1 := pyStrip l
  let s2 := dropTrail quoteChar (s1.dropWhile quoteChar)
  let s3 := dropTrail punctChar s2
  s3.map (fun c => if c = ' ' then '_' else c)

/-- final4.py normalise_name: empty input gives "unknown", otherwise
strip, unquote, strip trailing punctuation, spaces to underscores. -/
def normalise_name (raw : String) : String :=
  if raw = "" then "unknown" else String.mk (normalise_list raw.data)

/-- The body of real_name on a character list: the same stripping as
normalise_list but replacing underscores by spaces. -/
def real_list (l : List Char) : List Char :=
  let s1 := pyStrip l
  let s2 := dropTrail quoteChar (s1.dropWhile quoteChar)
  let s3 := dropTrail punctChar s2
  s3.map (fun c => if c = '_' then ' ' else c)

/-- final4.py real_name: empty input gives "unknown", otherwise strip,
unquote, strip trailing punctuation, underscores to spaces. -/
def real_name (raw : String) : String :=
  if raw = "" then "unknown" else String.mk (real_list raw.data)

/-- ASCII lower-casing, the effect of re.IGNORECASE on the ASCII pattern
letters used by the three flee-message patterns. -/
def lowerChar (c : Char) : Char :=
  if 65 ≤ c.toNat ∧ c.toNat ≤ 90 then Char.ofNat (c.toNat + 32) else c

/-- Case-insensitive literal match: consume pat from the front of t (the
space in a pattern literal matches exactly one space), returning the
remainder on success. -/
def litCI : List Char → List Char → Option (List Char)
  | [], t => some t
  | _ :: _, [] => none
  | p :: ps, c :: cs => if lowerChar p = lowerChar c then litCI ps cs else none

/-- Length of the maximal leading whitespace run. -/
def wsRunLen : List Char → Nat
  | [] => 0
  | c :: cs => if pyWs c then wsRunLen cs + 1 else 0

/-- Does backslash-s-plus followed by the literal post match a prefix of
t (the trailing remainder is unconstrained, as with re.search)? -/
def tailWsLit (post : List Char) (t : List Char) : Bool :=
  (List.range (wsRunLen t)).any (fun j => (litCI post (t.drop (j + 1))).isSome)

/-- The lazy group (.+?): grow the group one character at a time (never
across a newline) until backslash-s-plus followed by post matches the
remainder; returns the shortest such group, as Python backtracking does. -/
def lazyGroup (post : List Char) (acc : List Char) : List Char → Option (List Char)
  | [] => none
  | c :: cs =>
    if c = '\n' then none
    else if tailWsLit post cs then some (acc ++ [c])
    else lazyGroup post (acc ++ [c]) cs

/-- The first backslash-s-plus is greedy: try consuming j whitespace
characters for j from the maximal run length down to 1, taking the first
j for which the lazy group then succeeds. -/
def greedyWsGroup (post : List Char) (r : List Char) : Nat → Option (List Char)
  | 0 => none
  | j + 1 =>
    match lazyGroup post [] (r.drop (j + 1)) with
    | some g => some g
    | none => greedyWsGroup post r j

/-- Match the whole pattern pre backslash-s-plus (.+?) backslash-s-plus
post at the start of t, returning the captured group. -/
def matchHere (pre post t : List Char) : Option (List Char) :=
  match litCI pre t with
  | none => none
  | some r => greedyWsGroup post r (wsRunLen r)

/-- re.search semantics: try the pattern at every position left to
right; the first position where the full pattern matches wins. -/
def reSearch (pre post : List Char) : List Char → Option (List Char)
  | [] => none
  | c :: cs =>
    match matchHere pre post (c :: cs) with
    | some g => some g
    | none => reSearch pre post cs

/-- final4.py extract_pokemon_name_from_text: empty text gives None;
otherwise the three patterns are tried in order and the first match's
group is normalised. -/
def extract_pokemon_name_from_text (text : String) : Option String :=
  if text = "" then none
  else
    match reSearch "Wild".data "fled".data text.data with
    | some g => some (normalise_name (String.mk g))
    | none =>
      match reSearch "A wild".data "has fled".data text.data with
      | some g => some (normalise_name (String.mk g))
      | none =>
        match reSearch "The wild".data "fled".data text.data with
        | some g => some (normalise_name (String.mk g))
        | none => none

/-- Python truthiness of an optional string: None and the empty string
are falsy. -/
def truthyS : Option String → Bool
  | none => false
  | some s => !(s == "")

/-- Collapse a falsy optional string to none (the effect of the
repeated pattern "if poke_name: break" / "if not poke_name"). -/
def toTruthy : Option String → Option String
  | none => none
  | some s => if s = "" then none else some s

/-- One embed field in assign_name: if the field (title or description)
is a truthy string, its extraction is attempted; the attempt only counts
when its result is truthy. -/
def tryField (f : Option String) : Option String :=
  match f with
  | none => none
  | some s => if s = "" then none else toTruthy (extract_pokemon_name_from_text s)

/-- The embed loop of assign_name: scan title then description of each
embed in order, stopping at the first truthy extracted name. -/
def firstFieldName : List (Option String × Option String) → Option String
  | [] => none
  | (t, d) :: rest =>
    match tryField t with
    | some n => some n
    | none =>
      match tryField d with
      | some n => some n
      | none => firstFieldName rest

/-- assign_name's whole name search: the message content first, then the
embed titles and descriptions; only a truthy name counts. -/
def find_poke_name (content : String)
    (embeds : List (Option String × Option String)) : Option String :=
  match toTruthy (extract_pokemon_name_from_text content) with
  | some n => some n
  | none => firstFieldName embeds

/-- Python dict assignment embed_db[k] = v on an insertion-ordered
association list: overwrite in place if the key exists, else append. -/
def dbInsert (k : String) (v : γ) : List (String × γ) → List (String × γ)
  | [] => [(k, v)]
  | (k1, v1) :: rest => if k1 = k then (k, v) :: rest else (k1, v1) :: dbInsert k v rest

/-- Dict lookup on the association list (first binding wins). -/
def dbLookup (k : String) : List (String × γ) → Option γ
  | [] => none
  | (k1, v1) :: rest => if k1 = k then some v1 else dbLookup k rest

/-- Token stream of the JSON object written by json.dump: an opening
brace, the key/value entries separated by commas, a closing brace. The
tokens abstract the json library's lexer, which is outside this
repository. -/
inductive JTok (γ : Type) where
  | objStart : JTok γ
  | objEnd : JTok γ
  | comma : JTok γ
  | entry : String → γ → JTok γ
  deriving DecidableEq

/-- The comma-separated entry list of the dumped object. -/
def dumpEntries : List (String × γ) → List (JTok γ)
  | [] => []
  | [(k, v)] => [JTok.entry k v]
  | (k, v) :: rest => JTok.entry k v :: JTok.comma :: dumpEntries rest

/-- json.dump of the whole catalog: the file is rewritten in full. -/
def dumpTokens (db : List (String × γ)) : List (JTok γ) :=
  JTok.objStart :: (dumpEntries db ++ [JTok.objEnd])

/-- Parse the body of a dumped object back into an association list. -/
def parseBody : List (JTok γ) → Option (List (String × γ))
  | [JTok.objEnd] => some []
  | [JTok.entry k v, JTok.objEnd] => some [(k, v)]
  | JTok.entry k v :: JTok.comma :: rest =>
    (match rest with
     | JTok.entry _ _ :: _ => (parseBody rest).map (fun db => (k, v) :: db)
     | _ => none)
  | _ => none

/-- json.load of the catalog file, as done once at startup. -/
def parseTokens : List (JTok γ) → Option (List (String × γ))
  | JTok.objStart :: rest => parseBody rest
  | _ => none

/-- The bot's mutable state: the in-memory pending image queue
(temp_images), the in-memory catalog (embed_db), and the persistent
catalog file (db_file, as its token stream). β is the type of raw image
bytes, γ the type of embeddings. -/
structure BotState (β γ : Type) where
  temp_images : List β
  embed_db : List (String × γ)
  db_file : List (JTok γ)

/-- The reply of the assign_name handler. -/
inductive AssignReply where
  | no_images : AssignReply
  | no_name : AssignReply
  | saved : String → AssignReply
  deriving DecidableEq

/-- final4.py store_image, successful path: append the raw bytes at the
back of temp_images and acknowledge with the queue's new length. -/
def store_image (st : BotState β γ) (data : β) : BotState β γ × Nat :=
  ({ st with temp_images := st.temp_images ++ [data] },
   (st.temp_images ++ [data]).length)

/-- final4.py assign_name: an empty queue is reported before anything
else; then a name is searched in the message, and failure is reported
with the state untouched; only then is the oldest pending image popped,
its embedding stored under the name, and the whole catalog rewritten to
the file. emb is the embedding function (get_embedding). -/
def assign_name (emb : β → γ) (st : BotState β γ) (content : String)
    (embeds : List (Option String × Option String)) : BotState β γ × AssignReply :=
  match st.temp_images with
  | [] => (st, AssignReply.no_images)
  | d :: rest =>
    match find_poke_name content embeds with
    | none => (st, AssignReply.no_name)
    | some n =>
      let db2 := dbInsert n (emb d) st.embed_db
      (⟨rest, db2, dumpTokens db2⟩, AssignReply.saved n)

/-- The linear scan of final4.py identify: start from (None, -1) and
replace the best pair whenever a strictly greater score appears. The
score function abstracts cosine_similarity against the query. -/
def cosineScan (score : γ → ℚ) : List (String × γ) → Option String × ℚ → Option String × ℚ
  | [], acc => acc
  | (n, e) :: rest, acc =>
    cosineScan score rest (if acc.2 < score e then (some n, score e) else acc)

/-- The (best_name, best_score) pair computed by final4.py identify. -/
def identify_best (score : γ → ℚ) (db : List (String × γ)) : Option String × ℚ :=
  cosineScan score db (none, -1)

/-- The decision of final4.py identify: report the display form of the
best name only when best_name is truthy and best_score exceeds the
hardcoded 0.95 threshold; otherwise report nothing (unrecognized). -/
def identify_reply (score : γ → ℚ) (db : List (String × γ)) : Option String :=
  match identify_best score db with
  | (some n, s) => if n = "" then none else if (95 : ℚ) / 100 < s then some (real_name n) else none
  | (none, _) => none

/-- The argmax of app.py identify_pokemon: torch returns the first index
attaining the maximal similarity. -/
def argmaxScan (score : γ → ℚ) : List (String × γ) → Option (String × ℚ)
  | [] => none
  | (n, e) :: rest =>
    match argmaxScan score rest with
    | none => some (n, score e)
    | some (m, s) => if s ≤ score e then some (n, score e) else some (m, s)

/-- The decision of app.py identify_pokemon: report the best name only
when the best similarity exceeds the hardcoded 0.85 threshold. -/
def identify_reply_app (score : γ → ℚ) (db : List (String × γ)) : Option String :=
  match argmaxScan score db with
  | some (n, s) => if (85 : ℚ) / 100 < s then some n else none
  | none => none

/-- A message attachment: its optional content_type and its url. -/
structure Attachment where
  content_type : Option String
  url : String

/-- The attachment test shared by both scripts: content_type is truthy
and starts with "image". -/
def isImageAtt (a : Attachment) : Bool :=
  match a.content_type with
  | none => false
  | some ct => !(ct == "") && "image".data.isPrefixOf ct.data

/-- The attachment arm shared by both scripts: if the attachment list is
non-empty, take the first attachment's url when it is an image. -/
def att_url_pick (atts : List Attachment) : Option String :=
  match atts with
  | [] => none
  | a :: _ => if isImageAtt a then some a.url else none

/-- The embed arm shared by both scripts: the first embed's image url,
when the embed has an image with a truthy url. An embed is modelled as
its image url chain: none when it has no image or no url. -/
def embed_url_pick (embs : List (Option String)) : Option String :=
  match embs with
  | [] => none
  | e :: _ => if truthyS e then e else none

/-- app.py's url selection: the attachment arm, and if the result is
falsy, the embed arm of the first embed; a falsy final value means the
"No image found" reply. -/
def pick_url_app (atts : List Attachment) (embs : List (Option String)) : Option String :=
  let u1 := att_url_pick atts
  let u2 :=
    if truthyS u1 then u1
    else
      match embs with
      | [] => u1
      | e :: _ => if truthyS e then e else u1
  if truthyS u2 then u2 else none

/-- final4.py's url selection (identify and store_image): the attachment
arm, and the embed arm only when the attachment list is empty (elif). -/
def pick_url_final4 (atts : List Attachment) (embs : List (Option String)) : Option String :=
  let u :=
    match atts with
    | [] => embed_url_pick embs
    | a :: _ => if isImageAtt a then some a.url else none
  if truthyS u then u else none

/-! Helper lemmas. -/

theorem toTruthy_ne_empty (o : Option String) (n : String)
    (h : toTruthy o = some n) : n ≠ "" := by
  cases o with
  | none => simp [toTruthy] at h
  | some s =>
    by_cases hs : s = ""
    · simp [toTruthy, hs] at h
    · simp [toTruthy, hs] at h
      exact fun he => hs (h.trans he)

theorem tryField_ne_empty (f : Option String) (n : String)
    (h : tryField f = some n) : n ≠ "" := by
  cases f with
  | none => simp [tryField] at h
  | some s =>
    by_cases hs : s = ""
    · simp [tryField, hs] at h
    · simp [tryField, hs] at h
      exact toTruthy_ne_empty _ _ h

theorem firstFieldName_ne_empty (l : List (Option String × Option String)) (n : String)
    (h : firstFieldName l = some n) : n ≠ "" := by
  induction l with
  | nil => simp [firstFieldName] at h
  | cons p rest ih =>
    obtain ⟨t, d⟩ := p
    cases ht : tryField t with
    | some m =>
      have hmn : m = n := by simpa [firstFieldName, ht] using h
      exact hmn ▸ tryField_ne_empty t m ht
    | none =>
      cases hd : tryField d with
      | some m =>
        have hmn : m = n := by simpa [firstFieldName, ht, hd] using h
        exact hmn ▸ tryField_ne_empty d m hd
      | none => exact ih (by simpa [firstFieldName, ht, hd] using h)

theorem find_poke_name_ne_empty (content : String)
    (embeds : List (Option String × Option String)) (n : String)
    (h : find_poke_name content embeds = some n) : n ≠ "" := by
  cases hc : toTruthy (extract_pokemon_name_from_text content) with
  | some m =>
    have hmn : m = n := by simpa [find_poke_name, hc] using h
    exact hmn ▸ toTruthy_ne_empty _ m hc
  | none => exact firstFieldName_ne_empty embeds n (by simpa [find_poke_name, hc] using h)

theorem dumpEntries_cons (k : String) (v : γ) (t : List (String × γ)) :
    ∃ r, dumpEntries ((k, v) :: t) = JTok.entry k v :: r := by
  cases t with
  | nil => exact ⟨[], rfl⟩
  | cons y s =>
    obtain ⟨a, b⟩ := y
    exact ⟨JTok.comma :: dumpEntries ((a, b) :: s), rfl⟩

theorem parseBody_dumpEntries (db : List (String × γ)) :
    parseBody (dumpEntries db ++ [JTok.objEnd]) = some db := by
  induction db with
  | nil => rfl
  | cons x rest ih =>
    obtain ⟨k, v⟩ := x
    cases rest with
    | nil => rfl
    | cons y t =>
      obtain ⟨k2, v2⟩ := y
      obtain ⟨r, hr⟩ := dumpEntries_cons k2 v2 t
      have hshape : dumpEntries ((k, v) :: (k2, v2) :: t) ++ [JTok.objEnd]
          = JTok.entry k v :: JTok.comma :: JTok.entry k2 v2 :: (r ++ [JTok.objEnd]) := by
        show JTok.entry k v :: JTok.comma :: (dumpEntries ((k2, v2) :: t) ++ [JTok.objEnd])
            = JTok.entry k v :: JTok.comma :: JTok.entry k2 v2 :: (r ++ [JTok.objEnd])
        rw [hr]
        rfl
      rw [hshape]
      show (parseBody (JTok.entry k2 v2 :: (r ++ [JTok.objEnd]))).map (fun db => (k, v) :: db)
          = some ((k, v) :: (k2, v2) :: t)
      have ih2 : parseBody (JTok.entry k2 v2 :: (r ++ [JTok.objEnd])) = some ((k2, v2) :: t) := by
        rw [show JTok.entry k2 v2 :: (r ++ [JTok.objEnd])
            = dumpEntries ((k2, v2) :: t) ++ [JTok.objEnd] by rw [hr]; rfl]
        exact ih
      rw [ih2]
      rfl

theorem parseTokens_dumpTokens (db : List (String × γ)) :
    parseTokens (dumpTokens db) = some db :=
  parseBody_dumpEntries db

theorem dbLookup_dbInsert (k : String) (v : γ) (db : List (String × γ)) :
    dbLookup k (dbInsert k v db) = some v := by
  induction db with
  | nil => simp [dbInsert, dbLookup]
  | cons p rest ih =>
    obtain ⟨k1, v1⟩ := p
    by_cases h : k1 = k
    · simp [dbInsert, dbLookup, h]
    · simp [dbInsert, dbLookup, h, ih]

theorem cosineScan_cases (score : γ → ℚ) (l : List (String × γ)) :
    ∀ bn : Option String, ∀ bs : ℚ,
    (cosineScan score l (bn, bs) = (bn, bs) ∧ ∀ p ∈ l, score p.2 ≤ bs)
    ∨ (∃ i, ∃ hi : i < l.length,
        cosineScan score l (bn, bs) = (some (l[i].1), score (l[i].2))
        ∧ bs < score (l[i].2)
        ∧ (∀ j, (hj : j < l.length) → j < i → score (l[j].2) < score (l[i].2))
        ∧ (∀ j, (hj : j < l.length) → score (l[j].2) ≤ score (l[i].2))) := by
  induction l with
  | nil =>
    intro bn bs
    left
    exact ⟨rfl, by simp⟩
  | cons p rest ih =>
    intro bn bs
    obtain ⟨n, e⟩ := p
    by_cases hlt : bs < score e
    · have step : cosineScan score ((n, e) :: rest) (bn, bs)
          = cosineScan score rest (some n, score e) := by
        simp [cosineScan, hlt]
      rcases ih (some n) (score e) with ⟨heq, hall⟩ | ⟨i, hi, heq, hgt, hfirst, hmax⟩
      · right
        refine ⟨0, by simp, ?_, by simpa using hlt, ?_, ?_⟩
        · rw [step, heq]
          simp
        · intro j hj hj0
          omega
        · intro j hj
          cases j with
          | zero => simp
          | succ j1 =>
            have hj1 : j1 < rest.length := by simpa using hj
            simpa using hall (rest[j1]) (List.getElem_mem hj1)
      · right
        refine ⟨i + 1, by simpa using Nat.succ_lt_succ hi, ?_, ?_, ?_, ?_⟩
        · rw [step]
          simpa using heq
        · simpa using lt_trans hlt hgt
        · intro j hj hji
          cases j with
          | zero => simpa using hgt
          | succ j1 =>
            have hj1 : j1 < rest.length := by simpa using hj
            simpa using hfirst j1 hj1 (by omega)
        · intro j hj
          cases j with
          | zero => simpa using le_of_lt hgt
          | succ j1 =>
            have hj1 : j1 < rest.length := by simpa using hj
            simpa using hmax j1 hj1
    · have hle : score e ≤ bs := not_lt.mp hlt
      have step : cosineScan score ((n, e) :: rest) (bn, bs)
          = cosineScan score rest (bn, bs) := by
        simp [cosineScan, hlt]
      rcases ih bn bs with ⟨heq, hall⟩ | ⟨i, hi, heq, hgt, hfirst, hmax⟩
      · left
        refine ⟨by rw [step, heq], ?_⟩
        intro q hq
        rcases List.mem_cons.mp hq with hq | hq
        · rw [hq]
          exact hle
        · exact hall q hq
      · right
        refine ⟨i + 1, by simpa using Nat.succ_lt_succ hi, ?_, ?_, ?_, ?_⟩
        · rw [step]
          simpa using heq
        · simpa using hgt
        · intro j hj hji
          cases j with
          | zero => simpa using lt_of_le_of_lt hle hgt
          | succ j1 =>
            have hj1 : j1 < rest.length := by simpa using hj
            simpa using hfirst j1 hj1 (by omega)
        · intro j hj
          cases j with
          | zero => simpa using le_of_lt (lt_of_le_of_lt hle hgt)
          | succ j1 =>
            have hj1 : j1 < rest.length := by simpa using hj
            simpa using hmax j1 hj1

/-! Claim theorems. -/

/-- Claim C1, code evidence: on the exact text "A wild Bulbasaur has
fled!" the extraction does NOT return "Bulbasaur"; the first pattern
(Wild, lazy group, fled) matches with the group "Bulbasaur has", which
normalises to "Bulbasaur_has". On "no match here" it returns none, as
the claim states. -/
theorem extract_flee_message_eval :
    extract_pokemon_name_from_text "A wild Bulbasaur has fled!" = some "Bulbasaur_has"
    ∧ extract_pokemon_name_from_text "no match here" = none := by
  constructor <;> decide

/-- Claim C10: identify over an empty catalog never reports a match and
never raises: the scan leaves (best_name, best_score) at (none, -1) and
the reply is the unrecognized one (none). -/
theorem identify_empty_db (score : γ → ℚ) : identify_reply score [] = none := rfl

/-- Claim C4: an assign with an empty pending queue, or one whose
message yields no extractable name, reports the failure and leaves the
whole state (pending queue, in-memory catalog and catalog file) exactly
unchanged; nothing is popped. -/
theorem assign_noop_on_failure (emb : β → γ) (st : BotState β γ) (content : String)
    (embeds : List (Option String × Option String))
    (h : st.temp_images = [] ∨ find_poke_name content embeds = none) :
    (assign_name emb st content embeds).1 = st
    ∧ ∀ n, (assign_name emb st content embeds).2 ≠ AssignReply.saved n := by
  rcases h with h | h
  · simp [assign_name, h]
  · cases hq : st.temp_images with
    | nil => simp [assign_name, hq]
    | cons d rest => simp [assign_name, hq, h]

/-- Witness for C4 at a concrete state with an empty pending queue. -/
theorem assign_noop_on_failure_w :
    (assign_name (fun b : Nat => b) ⟨[], [], dumpTokens []⟩ "x" []).1
      = (⟨[], [], dumpTokens []⟩ : BotState Nat Nat)
    ∧ ∀ n, (assign_name (fun b : Nat => b)
        (⟨[], [], dumpTokens []⟩ : BotState Nat Nat) "x" []).2 ≠ AssignReply.saved n :=
  assign_noop_on_failure (fun b : Nat => b) ⟨[], [], dumpTokens []⟩ "x" [] (Or.inl rfl)

/-- Claim C5: the pending queue is FIFO: a successful store appends its
entry at the back and acknowledges with the new length, and a
successful assign pops the oldest (front) entry and stores that entry's
embedding. -/
theorem fifo_store_assign (emb : β → γ) (st : BotState β γ) (data d : β) (rest : List β)
    (content : String) (embeds : List (Option String × Option String)) (n : String)
    (hq : st.temp_images = d :: rest) (hn : find_poke_name content embeds = some n) :
    (store_image st data).1.temp_images = st.temp_images ++ [data]
    ∧ (store_image st data).2 = st.temp_images.length + 1
    ∧ (assign_name emb st content embeds).1.temp_images = rest
    ∧ (assign_name emb st content embeds).1.embed_db = dbInsert n (emb d) st.embed_db
    ∧ (assign_name emb st content embeds).2 = AssignReply.saved n := by
  refine ⟨rfl, by simp [store_image], ?_, ?_, ?_⟩ <;> simp [assign_name, hq, hn]

/-- Witness for C5 at a concrete state and a concrete flee message. -/
theorem fifo_store_assign_w :
    (store_image (⟨[5], [], dumpTokens []⟩ : BotState Nat Nat) 9).1.temp_images = [5] ++ [9]
    ∧ (store_image (⟨[5], [], dumpTokens []⟩ : BotState Nat Nat) 9).2 = [5].length + 1
    ∧ (assign_name (fun b : Nat => b + 100) (⟨[5], [], dumpTokens []⟩ : BotState Nat Nat)
        "Wild Pikachu fled" []).1.temp_images = []
    ∧ (assign_name (fun b : Nat => b + 100) (⟨[5], [], dumpTokens []⟩ : BotState Nat Nat)
        "Wild Pikachu fled" []).1.embed_db = dbInsert "Pikachu" 105 []
    ∧ (assign_name (fun b : Nat => b + 100) (⟨[5], [], dumpTokens []⟩ : BotState Nat Nat)
        "Wild Pikachu fled" []).2 = AssignReply.saved "Pikachu" :=
  fifo_store_assign (fun b : Nat => b + 100) ⟨[5], [], dumpTokens []⟩ 9 5 []
    "Wild Pikachu fled" [] "Pikachu" rfl (by decide)

/-- Claim C7: every label ever written by assign is non-empty: a saved
reply carries a name that is not the empty string, because an
empty-after-normalisation name is falsy in Python and rejected before
any write. -/
theorem saved_label_nonempty (emb : β → γ) (st : BotState β γ) (content : String)
    (embeds : List (Option String × Option String)) (n : String)
    (h : (assign_name emb st content embeds).2 = AssignReply.saved n) : n ≠ "" := by
  cases hq : st.temp_images with
  | nil => simp [assign_name, hq] at h
  | cons d rest =>
    cases hn : find_poke_name content embeds with
    | none => simp [assign_name, hq, hn] at h
    | some m =>
      have hmn : m = n := by simpa [assign_name, hq, hn] using h
      exact hmn ▸ find_poke_name_ne_empty content embeds m hn

/-- Witness for C7: a concrete assign that saves the label Pikachu,
which is indeed non-empty. -/
theorem saved_label_nonempty_w :
    (assign_name (fun b : Nat => b) (⟨[5], [], dumpTokens []⟩ : BotState Nat Nat)
        "Wild Pikachu fled" []).2 = AssignReply.saved "Pikachu"
    ∧ ("Pikachu" : String) ≠ "" :=
  ⟨by decide, saved_label_nonempty (fun b : Nat => b) ⟨[5], [], dumpTokens []⟩
    "Wild Pikachu fled" [] "Pikachu" (by decide)⟩

/-- Claim C2, counterexample to the claim as stated: a non-empty
catalog whose single entry scores exactly -1 (a legitimate cosine
similarity, witnessed here with the identity score on rationals in
[-1, 1]) makes the scan return no entry at all, because the running
best starts at -1 and only a strictly greater score replaces it. -/
theorem identify_best_all_minus_one_cx :
    ([(("a" : String), (-1 : ℚ))] ≠ [])
    ∧ (∀ p ∈ [(("a" : String), (-1 : ℚ))], -1 ≤ p.2 ∧ p.2 ≤ 1)
    ∧ (identify_best (fun q : ℚ => q) [("a", (-1 : ℚ))]).1 = none := by
  refine ⟨by simp, by decide, by decide⟩

/-- Claim C2 (amended): whenever some catalog entry scores strictly
above -1, the scan returns the first entry attaining the maximal score:
its score is greater than or equal to every entry's score and strictly
greater than every earlier entry's score. -/
theorem identify_best_first_max (score : γ → ℚ) (db : List (String × γ))
    (h : ∃ p ∈ db, -1 < score p.2) :
    ∃ i, ∃ hi : i < db.length,
      identify_best score db = (some (db[i].1), score (db[i].2))
      ∧ (∀ j, (hj : j < db.length) → score (db[j].2) ≤ score (db[i].2))
      ∧ (∀ j, (hj : j < db.length) → j < i → score (db[j].2) < score (db[i].2)) := by
  rcases cosineScan_cases score db none (-1) with ⟨_, hall⟩ | ⟨i, hi, heq, _, hfirst, hmax⟩
  · obtain ⟨p, hp, hgt⟩ := h
    exact absurd (hall p hp) (not_le.mpr hgt)
  · exact ⟨i, hi, heq, hmax, hfirst⟩

/-- Witness for C2 at a concrete two-entry catalog with a tie: the
first of the two maximal entries wins. -/
theorem identify_best_first_max_w :
    ∃ i, ∃ hi : i < ([("a", (1 : ℚ) / 2), ("b", (1 : ℚ) / 2)]).length,
      identify_best (fun q : ℚ => q) [("a", (1 : ℚ) / 2), ("b", (1 : ℚ) / 2)]
        = (some (([("a", (1 : ℚ) / 2), ("b", (1 : ℚ) / 2)])[i].1),
           ([("a", (1 : ℚ) / 2), ("b", (1 : ℚ) / 2)])[i].2)
      ∧ (∀ j, (hj : j < ([("a", (1 : ℚ) / 2), ("b", (1 : ℚ) / 2)]).length) →
          ([("a", (1 : ℚ) / 2), ("b", (1 : ℚ) / 2)])[j].2
            ≤ ([("a", (1 : ℚ) / 2), ("b", (1 : ℚ) / 2)])[i].2)
      ∧ (∀ j, (hj : j < ([("a", (1 : ℚ) / 2), ("b", (1 : ℚ) / 2)]).length) → j < i →
          ([("a", (1 : ℚ) / 2), ("b", (1 : ℚ) / 2)])[j].2
            < ([("a", (1 : ℚ) / 2), ("b", (1 : ℚ) / 2)])[i].2) :=
  identify_best_first_max (fun q : ℚ => q) [("a", (1 : ℚ) / 2), ("b", (1 : ℚ) / 2)]
    ⟨("a", (1 : ℚ) / 2), by simp, by norm_num⟩

/-- Claim C3: over a catalog whose labels are all non-empty (the spec's
own data-model invariant), the final4 identify reports a match exactly
when the best score strictly exceeds the hardcoded 0.95, and the app
variant reports a match exactly when its best similarity strictly
exceeds the hardcoded 0.85; both thresholds are fixed constants of the
definitions. -/
theorem threshold_accept_iff (score : γ → ℚ) (db : List (String × γ))
    (hlab : ∀ p ∈ db, p.1 ≠ "") :
    ((identify_reply score db).isSome ↔ (95 : ℚ) / 100 < (identify_best score db).2)
    ∧ (∀ n s, argmaxScan score db = some (n, s) →
        ((identify_reply_app score db).isSome ↔ (85 : ℚ) / 100 < s)) := by
  constructor
  · rcases cosineScan_cases score db none (-1) with ⟨heq, _⟩ | ⟨i, hi, heq, _, _, _⟩
    · have hb : identify_best score db = (none, -1) := heq
      rw [identify_reply, hb]
      simp only [Option.isSome_none]
      constructor
      · intro hfalse
        exact absurd hfalse (by simp)
      · intro hlt
        exact absurd hlt (by norm_num)
    · have hb : identify_best score db = (some (db[i].1), score (db[i].2)) := heq
      have hne : (db[i]).1 ≠ "" := hlab (db[i]) (List.getElem_mem hi)
      rw [identify_reply, hb]
      simp only [hne, if_false]
      by_cases hth : (95 : ℚ) / 100 < score ((db[i]).2) <;> simp [hth, hb]
  · intro n s hao
    rw [identify_reply_app, hao]
    by_cases hth : (85 : ℚ) / 100 < s <;> simp [hth]

/-- Witness for C3 at a concrete one-entry catalog scoring 1. -/
theorem threshold_accept_iff_w :
    ((identify_reply (fun q : ℚ => q) [("b", (1 : ℚ))]).isSome
      ↔ (95 : ℚ) / 100 < (identify_best (fun q : ℚ => q) [("b", (1 : ℚ))]).2)
    ∧ (∀ n s, argmaxScan (fun q : ℚ => q) [("b", (1 : ℚ))] = some (n, s) →
        ((identify_reply_app (fun q : ℚ => q) [("b", (1 : ℚ))]).isSome
          ↔ (85 : ℚ) / 100 < s)) :=
  threshold_accept_iff (fun q : ℚ => q) [("b", (1 : ℚ))] (by decide)

/-- Claim C8: after every successful assign the catalog file holds the
full dump of the in-memory catalog, parsing the file back yields
exactly the in-memory catalog, and the newly assigned label is bound to
exactly the embedding computed from the popped oldest image. -/
theorem assign_persists_catalog (emb : β → γ) (st : BotState β γ) (content : String)
    (embeds : List (Option String × Option String)) (st2 : BotState β γ) (n : String)
    (h : assign_name emb st content embeds = (st2, AssignReply.saved n)) :
    st2.db_file = dumpTokens st2.embed_db
    ∧ parseTokens st2.db_file = some st2.embed_db
    ∧ ∃ d rest, st.temp_images = d :: rest ∧ dbLookup n st2.embed_db = some (emb d) := by
  cases hq : st.temp_images with
  | nil => simp [assign_name, hq] at h
  | cons d rest =>
    cases hn : find_poke_name content embeds with
    | none => simp [assign_name, hq, hn] at h
    | some m =>
      obtain ⟨hst, hnm⟩ : st2 = (⟨rest, dbInsert m (emb d) st.embed_db,
          dumpTokens (dbInsert m (emb d) st.embed_db)⟩ : BotState β γ) ∧ n = m := by
        have h2 := h.symm
        simp only [assign_name, hq, hn, Prod.mk.injEq, AssignReply.saved.injEq] at h2
        exact h2
      subst hnm
      refine ⟨?_, ?_, d, rest, rfl, ?_⟩
      · rw [hst]
      · rw [hst]
        exact parseTokens_dumpTokens _
      · rw [hst]
        exact dbLookup_dbInsert n (emb d) st.embed_db

/-- Witness for C8 at a concrete assign over a one-image queue and a
one-entry catalog. -/
theorem assign_persists_catalog_w :
    (⟨[], [("Old", 1), ("Pikachu", 105)],
        dumpTokens [("Old", 1), ("Pikachu", 105)]⟩ : BotState Nat Nat).db_file
      = dumpTokens (⟨[], [("Old", 1), ("Pikachu", 105)],
          dumpTokens [("Old", 1), ("Pikachu", 105)]⟩ : BotState Nat Nat).embed_db
    ∧ parseTokens (⟨[], [("Old", 1), ("Pikachu", 105)],
          dumpTokens [("Old", 1), ("Pikachu", 105)]⟩ : BotState Nat Nat).db_file
      = some (⟨[], [("Old", 1), ("Pikachu", 105)],
          dumpTokens [("Old", 1), ("Pikachu", 105)]⟩ : BotState Nat Nat).embed_db
    ∧ ∃ d rest, ([5] : List Nat) = d :: rest
      ∧ dbLookup "Pikachu" (⟨[], [("Old", 1), ("Pikachu", 105)],
          dumpTokens [("Old", 1), ("Pikachu", 105)]⟩ : BotState Nat Nat).embed_db
        = some (d + 100) :=
  assign_persists_catalog (fun b : Nat => b + 100)
    ⟨[5], [("Old", 1)], dumpTokens [("Old", 1)]⟩ "Wild Pikachu fled" []
    ⟨[], [("Old", 1), ("Pikachu", 105)], dumpTokens [("Old", 1), ("Pikachu", 105)]⟩
    "Pikachu" rfl

/-- Claim C9, counterexample to the claim as stated: a message whose
first attachment is a non-image file and whose first embed carries an
image url is resolved differently by the two scripts: app.py falls
through to the embed url while final4.py, whose embed arm sits under an
elif, selects nothing. -/
theorem url_pick_equiv_cx :
    pick_url_app [⟨some "text/plain", "ua"⟩] [some "ue"] = some "ue"
    ∧ pick_url_final4 [⟨some "text/plain", "ua"⟩] [some "ue"] = none := by
  constructor <;> decide

/-- Claim C9 (amended): the two url selections agree whenever the
message has no attachments, or its first attachment is an image with a
truthy url, or its first embed carries no truthy image url; they can
differ only when a non-image (or empty-url) first attachment is
combined with a truthy first embed image url. -/
theorem url_pick_equiv (atts : List Attachment) (embs : List (Option String))
    (h : atts = []
      ∨ (∃ a rest, atts = a :: rest ∧ isImageAtt a = true ∧ a.url ≠ "")
      ∨ (∀ e, embs.head? = some e → truthyS e = false)) :
    pick_url_app atts embs = pick_url_final4 atts embs := by
  have htn : truthyS none = false := rfl
  rcases h with h | ⟨a, rest, ha, himg, hurl⟩ | h
  · subst h
    cases embs with
    | nil => rfl
    | cons e es =>
      cases he : truthyS e with
      | true => simp [pick_url_app, pick_url_final4, att_url_pick, embed_url_pick, he, htn]
      | false => simp [pick_url_app, pick_url_final4, att_url_pick, embed_url_pick, he, htn]
  · subst ha
    have hu : truthyS (some a.url) = true := by
      simp [truthyS, hurl]
    cases embs with
    | nil => simp [pick_url_app, pick_url_final4, att_url_pick, himg, hu]
    | cons e es => simp [pick_url_app, pick_url_final4, att_url_pick, himg, hu]
  · cases atts with
    | nil =>
      cases embs with
      | nil => rfl
      | cons e es =>
        have he : truthyS e = false := h e rfl
        simp [pick_url_app, pick_url_final4, att_url_pick, embed_url_pick, he, htn]
    | cons a rest =>
      rcases embs with _ | ⟨e, es⟩
      · cases himg : isImageAtt a with
        | true => simp [pick_url_app, pick_url_final4, att_url_pick, himg]
        | false => simp [pick_url_app, pick_url_final4, att_url_pick, himg, htn]
      · have he : truthyS e = false := h e rfl
        cases himg : isImageAtt a with
        | true =>
          cases hu : truthyS (some a.url) with
          | true => simp [pick_url_app, pick_url_final4, att_url_pick, himg, hu]
          | false => simp [pick_url_app, pick_url_final4, att_url_pick, himg, hu, he]
        | false => simp [pick_url_app, pick_url_final4, att_url_pick, himg, he, htn]

/-- Witness for C9 at a concrete message with no attachments and one
embed. -/
theorem url_pick_equiv_w :
    pick_url_app [] [some "u"] = pick_url_final4 [] [some "u"] :=
  url_pick_equiv [] [some "u"] (Or.inl rfl)

theorem dropWhile_head_false (p : Char → Bool) (l : List Char)
    (h : ∀ c ∈ l.take 1, p c = false) : l.dropWhile p = l := by
  cases l with
  | nil => rfl
  | cons c cs => simp [List.dropWhile_cons, h c (by simp)]

theorem dropTrail_last_false (p : Char → Bool) (l : List Char)
    (h : ∀ c ∈ l.reverse.take 1, p c = false) : dropTrail p l = l := by
  unfold dropTrail
  rw [dropWhile_head_false p l.reverse h, List.reverse_reverse]

theorem round_trip_list (l : List Char)
    (hh : ∀ c ∈ l.take 1, pyWs c = false ∧ quoteChar c = false)
    (hl : ∀ c ∈ l.reverse.take 1, pyWs c = false ∧ quoteChar c = false ∧ punctChar c = false)
    (hu : ∀ c ∈ l, c ≠ '_') :
    real_list (normalise_list l) = l := by
  have hfid : ∀ c : Char, pyWs c = false → (if c = ' ' then '_' else c) = c := by
    intro c hc
    have hcs : c ≠ ' ' := by
      intro he
      rw [he] at hc
      exact absurd hc (by simp [pyWs])
    simp [hcs]
  have h3 : pyStrip l = l := by
    unfold pyStrip
    rw [dropWhile_head_false _ _ (fun c hc => (hh c hc).1),
      dropTrail_last_false _ _ (fun c hc => (hl c hc).1)]
  have hn : normalise_list l = l.map (fun c => if c = ' ' then '_' else c) := by
    simp only [normalise_list]
    rw [h3, dropWhile_head_false _ _ (fun c hc => (hh c hc).2),
      dropTrail_last_false _ _ (fun c hc => (hl c hc).2.1),
      dropTrail_last_false _ _ (fun c hc => (hl c hc).2.2)]
  rw [hn]
  have hh2 : ∀ c ∈ (l.map (fun c => if c = ' ' then '_' else c)).take 1,
      pyWs c = false ∧ quoteChar c = false := by
    intro c hc
    rw [← List.map_take] at hc
    obtain ⟨c0, hc0, rfl⟩ := List.mem_map.mp hc
    rw [hfid c0 (hh c0 hc0).1]
    exact hh c0 hc0
  have hl2 : ∀ c ∈ (l.map (fun c => if c = ' ' then '_' else c)).reverse.take 1,
      pyWs c = false ∧ quoteChar c = false ∧ punctChar c = false := by
    intro c hc
    rw [← List.map_reverse, ← List.map_take] at hc
    obtain ⟨c0, hc0, rfl⟩ := List.mem_map.mp hc
    rw [hfid c0 (hl c0 hc0).1]
    exact hl c0 hc0
  have k3 : pyStrip (l.map (fun c => if c = ' ' then '_' else c))
      = l.map (fun c => if c = ' ' then '_' else c) := by
    unfold pyStrip
    rw [dropWhile_head_false _ _ (fun c hc => (hh2 c hc).1),
      dropTrail_last_false _ _ (fun c hc => (hl2 c hc).1)]
  have kr : real_list (l.map (fun c => if c = ' ' then '_' else c))
      = (l.map (fun c => if c = ' ' then '_' else c)).map
          (fun c => if c = '_' then ' ' else c) := by
    simp only [real_list]
    rw [k3, dropWhile_head_false _ _ (fun c hc => (hh2 c hc).2),
      dropTrail_last_false _ _ (fun c hc => (hl2 c hc).2.1),
      dropTrail_last_false _ _ (fun c hc => (hl2 c hc).2.2)]
  rw [kr, List.map_map]
  have hgf : ∀ c ∈ l,
      ((fun c : Char => if c = '_' then ' ' else c)
        ∘ (fun c : Char => if c = ' ' then '_' else c)) c = id c := by
    intro c hc
    by_cases hcs : c = ' '
    · simp [hcs]
    · have hcu : c ≠ '_' := hu c hc
      simp [hcs, hcu]
  rw [List.map_congr_left hgf, List.map_id]

/-- Claim C6, counterexample to the claim as stated: the string " a"
carries no surrounding quote characters, no trailing punctuation from
the stripped set, and no underscore, yet the storage/display round trip
loses its leading space, because normalise_name strips whitespace. -/
theorem name_round_trip_cx :
    (∀ c ∈ (" a" : String).data, c ≠ '_')
    ∧ (∀ c ∈ (" a" : String).data.take 1, quoteChar c = false)
    ∧ (∀ c ∈ (" a" : String).data.reverse.take 1, quoteChar c = false ∧ punctChar c = false)
    ∧ real_name (normalise_name " a") ≠ " a" := by
  refine ⟨by decide, by decide, by decide, by decide⟩

/-- Claim C6 (amended): for every non-empty string whose first
character is neither whitespace nor a quote, whose last character is
neither whitespace, a quote, nor a stripped punctuation character, and
which contains no underscore, the display form of the storage form is
the original string: real_name (normalise_name s) = s. In particular
this holds for "Mr. Mime". -/
theorem name_round_trip (s : String) (h0 : s ≠ "")
    (hh : ∀ c ∈ s.data.take 1, pyWs c = false ∧ quoteChar c = false)
    (hl : ∀ c ∈ s.data.reverse.take 1, pyWs c = false ∧ quoteChar c = false ∧ punctChar c = false)
    (hu : ∀ c ∈ s.data, c ≠ '_') :
    real_name (normalise_name s) = s := by
  have hd : s.data ≠ [] := by
    intro hnil
    apply h0
    cases s with
    | mk l => rw [show l = [] from hnil]
  have hr : real_list (normalise_list s.data) = s.data := round_trip_list s.data hh hl hu
  have hnn : normalise_list s.data ≠ [] := by
    intro hnil
    rw [hnil] at hr
    exact hd (hr.symm.trans rfl)
  have hmk : normalise_name s = String.mk (normalise_list s.data) := by
    unfold normalise_name
    rw [if_neg h0]
  rw [hmk]
  have hne : String.mk (normalise_list s.data) ≠ "" := by
    intro he
    apply hnn
    have h2 := congrArg String.data he
    simpa using h2
  unfold real_name
  rw [if_neg hne]
  show String.mk (real_list (normalise_list s.data)) = s
  rw [hr]

/-- Witness for C6: the round trip at the concrete name "Mr. Mime". -/
theorem name_round_trip_w : real_name (normalise_name "Mr. Mime") = "Mr. Mime" :=
  name_round_trip "Mr. Mime" (by decide) (by decide) (by decide) (by decide)

end PokeBot
